import Mathlib

/-!
Verification of the pyzusi3 node-tree codec (`pyzusi3/nodes.py`).

The file embeds the data model (`ContentType`, `BasicNode`), the typed-content
encoder (`BasicNode._encodecontent`), the tree encoder (`BasicNode.encode`)
and the streaming decoder (`StreamDecoder._get_bytes` / `StreamDecoder._decode`)
as executable Lean definitions, and proves properties of the quoted spec
sentences against them.

Python runtime values that can occur as `BasicNode.content` are modelled by
`PyValue`; Python exceptions that the encoder/decoder can surface are modelled
by explicit error enumerations (`EncodeError`, `DecodeError`), with one
constructor per distinct Python exception outcome, uncaught runtime errors
(`OverflowError` from `int.to_bytes`, `NameError` from the broken `except`
clause of the STRING branch, `AttributeError` from attribute access on a wrong
runtime type or on `None`) included.
-/

set_option maxRecDepth 10000

deriving instance DecidableEq for Except

namespace Pyzusi3

/-- Wire content types, `ContentType` in `nodes.py` (values 0..11). -/
inductive ContentType where
  | BYTE | SHORTINT | WORD | SMALLINT | INTEGER | CARDINAL
  | INTEGER64BIT | SINGLE | DOUBLE | STRING | FILE | RAW
deriving DecidableEq, Repr

/-- Python runtime values usable as node content: ints, floats (modelled by
their exact rational value), strings and byte strings (lists of byte values). -/
inductive PyValue where
  | pyInt : Int → PyValue
  | pyFloat : Rat → PyValue
  | pyStr : String → PyValue
  | pyBytes : List Nat → PyValue
deriving DecidableEq, Repr

/-- The node tree, `BasicNode` in `nodes.py`.  The `parent_node` field of the
Python class is a decode-time cursor aid only: it is ignored by `__eq__` and by
`encode`, and is represented in the decoder embedding below by an explicit
stack of in-progress ancestors, so it does not appear here. -/
inductive BasicNode where
  | mk : Option Int → Option PyValue → Option ContentType → List BasicNode → BasicNode

/-- Field `id` of a `BasicNode`. -/
def BasicNode.id : BasicNode → Option Int
  | .mk i _ _ _ => i

/-- Field `content` of a `BasicNode`. -/
def BasicNode.content : BasicNode → Option PyValue
  | .mk _ c _ _ => c

/-- Field `contenttype` of a `BasicNode`. -/
def BasicNode.contenttype : BasicNode → Option ContentType
  | .mk _ _ t _ => t

/-- Field `children` of a `BasicNode`. -/
def BasicNode.children : BasicNode → List BasicNode
  | .mk _ _ _ ch => ch

/-- Errors the encoder can surface.  `missingContentType` and `encodingValue`
are the exception classes raised on purpose (`MissingContentTypeError`,
`EncodingValueError`); the remaining constructors are uncaught Python runtime
errors the code can also raise: `overflowError` from `int.to_bytes` on a
negative int or an int that does not fit the width (the source never passes
`signed=True`), `nameError` from the STRING `except` clause which formats a
message with an undefined variable `e`, and `attributeError` from calling
`.to_bytes`/`.encode` on a value of the wrong runtime type. -/
inductive EncodeError where
  | missingContentType
  | encodingValue
  | overflowError
  | nameError
  | attributeError
deriving DecidableEq, Repr

/-- Little-endian bytes of a natural number, fixed width `n`, least significant
byte first (the layout of `int.to_bytes(n, byteorder='little')`). -/
def leBytes : Nat → Nat → List Nat
  | 0, _ => []
  | n + 1, v => v % 256 :: leBytes n (v / 256)

/-- `int.to_bytes(nbytes, byteorder='little')`: fails with `OverflowError` on a
negative int (no `signed=True` anywhere in the source) or on an int that does
not fit in `nbytes` bytes. -/
def intToBytes (nbytes : Nat) (i : Int) : Except EncodeError (List Nat) :=
  if i < 0 then .error .overflowError
  else if (256 : Int) ^ nbytes ≤ i then .error .overflowError
  else .ok (leBytes nbytes i.toNat)

/-- Numeric view of a content value, used by the chained range comparisons
`lo <= self.content <= hi`: ints and floats compare against the int/float
bounds, strings and bytes raise `TypeError` (modelled as `none`). -/
def asRat : Option PyValue → Option Rat
  | some (.pyInt i) => some (i : Rat)
  | some (.pyFloat q) => some q
  | _ => none

/-- Round a rational to the nearest integer, ties to even (the rounding used
by the `float`/`double` conversions performed by `struct.pack`). -/
def roundHalfEven (q : Rat) : Int :=
  if q - ⌊q⌋ < 1 / 2 then ⌊q⌋
  else if 1 / 2 < q - ⌊q⌋ then ⌊q⌋ + 1
  else if ⌊q⌋ % 2 = 0 then ⌊q⌋ else ⌊q⌋ + 1

/-- IEEE-754 bit pattern of a rational in a binary format with `prec`
significand bits (implicit bit included), least subnormal exponent `emin` and
`ebits` exponent-field bits; values too large for the format map to the
infinity pattern (`struct.pack('<f', ...)` raises `OverflowError` there, a
case the encoder's range guards make unreachable). -/
def floatBits (prec : Nat) (emin : Int) (ebits : Nat) (q : Rat) : Nat :=
  if q = 0 then 0 else
  let sign : Nat := if q < 0 then 1 else 0
  let a : Rat := |q|
  let e0 : Int := max emin (Int.log 2 a - ((prec : Int) - 1))
  let m0 : Int := roundHalfEven (a / (2 : Rat) ^ e0)
  let m : Int := if m0 = 2 ^ prec then 2 ^ (prec - 1) else m0
  let e : Int := if m0 = 2 ^ prec then e0 + 1 else e0
  if m < 2 ^ (prec - 1) then
    -- subnormal: exponent field 0, fraction is the significand itself
    sign * 2 ^ (ebits + prec - 1) + m.toNat
  else
    let efield : Int := e + ((prec : Int) - 1) + (2 ^ (ebits - 1) - 1)
    if (2 : Int) ^ ebits - 1 ≤ efield then
      -- infinity pattern
      sign * 2 ^ (ebits + prec - 1) + (2 ^ ebits - 1) * 2 ^ (prec - 1)
    else
      sign * 2 ^ (ebits + prec - 1) + efield.toNat * 2 ^ (prec - 1)
        + (m - 2 ^ (prec - 1)).toNat

/-- `struct.pack("<f", x)`: 4-byte little-endian IEEE-754 binary32. -/
def packFloat32 (q : Rat) : List Nat := leBytes 4 (floatBits 24 (-149) 8 q)

/-- `struct.pack("<d", x)`: 8-byte little-endian IEEE-754 binary64. -/
def packFloat64 (q : Rat) : List Nat := leBytes 8 (floatBits 53 (-1074) 11 q)

/-- Shared shape of the integer branches of `_encodecontent`: run the chained
range comparison (a `TypeError` there is re-raised as `EncodingValueError`),
then call `self.content.to_bytes(nbytes, byteorder='little')` — which is an
`AttributeError` on a non-int and an uncaught `OverflowError` on any negative
int, the guards notwithstanding. -/
def encodeIntKind (lo hi : Rat) (nbytes : Nat) (c : Option PyValue) :
    Except EncodeError (List Nat) :=
  match asRat c with
  | none => .error .encodingValue
  | some q =>
    if lo ≤ q ∧ q ≤ hi then
      match c with
      | some (.pyInt i) => intToBytes nbytes i
      | _ => .error .attributeError
    else .error .encodingValue

/-- Shared shape of the float branches of `_encodecontent`: range guard (with
`TypeError` re-raised as `EncodingValueError`), then `struct.pack`.  The
guards bound the value by `3.4E38` (resp. `1.7E308`), strictly below the
largest finite binary32 (resp. binary64) value, so the `OverflowError` branch
of the source is unreachable and packing always yields bytes here. -/
def encodeFloatKind (lo hi : Rat) (pack : Rat → List Nat) (c : Option PyValue) :
    Except EncodeError (List Nat) :=
  match asRat c with
  | none => .error .encodingValue
  | some q =>
    if lo ≤ q ∧ q ≤ hi then .ok (pack q)
    else .error .encodingValue

/-- `BasicNode._encodecontent` (`nodes.py` lines 39-124), as a function of the
`contenttype` and `content` fields.  Branches appear in source order; the
final `else` of the source (unknown content type) is unreachable because
`ContentType` is a closed enumeration.  Range constants are the decimal values
of the source literals (the Python float literal is the nearest binary64 to
the same decimal; no claim below exercises the sub-ulp difference).  In the
STRING branch a non-Latin-1 character triggers the `except UnicodeEncodeError`
clause, whose message formatting references an undefined variable `e`, so the
call raises `NameError`, not `EncodingValueError`. -/
def encodecontent (ct : Option ContentType) (c : Option PyValue) :
    Except EncodeError (List Nat) :=
  match ct with
  | none => .error .missingContentType
  | some .BYTE => encodeIntKind 0 255 1 c
  | some .SHORTINT => encodeIntKind (-128) 127 1 c
  | some .WORD => encodeIntKind 0 65535 2 c
  | some .SMALLINT => encodeIntKind (-32768) 32767 2 c
  | some .INTEGER => encodeIntKind (-2147483648) 2147483647 4 c
  | some .CARDINAL => encodeIntKind 0 4294967295 4 c
  | some .INTEGER64BIT =>
      encodeIntKind (-9223372036854775808) 9223372036854775807 8 c
  | some .SINGLE => encodeFloatKind (15 / 10 ^ 46) (34 * 10 ^ 37) packFloat32 c
  | some .DOUBLE => encodeFloatKind (5 / 10 ^ 324) (17 * 10 ^ 307) packFloat64 c
  | some .STRING =>
      match c with
      | some (.pyStr s) =>
        if s.toList.all (fun ch => ch.toNat ≤ 255) then
          .ok (s.toList.map Char.toNat)
        else .error .nameError
      | _ => .error .attributeError
  | some .FILE | some .RAW =>
      match c with
      | some (.pyBytes b) => .ok b
      | _ => .error .encodingValue

/-- The `if self.content is not None` block of `encode` (`nodes.py` lines
132-135 and 138-139): encode the content, then the 4-byte length
`2 + len(bytecontent)`; the pair is (length bytes, content bytes). -/
def encodeLenCont (c : Option PyValue) (ct : Option ContentType) :
    Except EncodeError (List Nat × List Nat) :=
  match c with
  | none => .ok ([], [])
  | some _ =>
    match encodecontent ct c with
    | .error e => .error e
    | .ok bc =>
      match intToBytes 4 ((2 : Int) + bc.length) with
      | .error e => .error e
      | .ok lb => .ok (lb, bc)

/-- The `if self.id is not None` block of `encode` (`nodes.py` lines
136-137). -/
def encodeId (i : Option Int) : Except EncodeError (List Nat) :=
  match i with
  | none => .ok []
  | some iv => intToBytes 2 iv

mutual

/-- `BasicNode.encode` (`nodes.py` lines 126-146): container-open marker if
the node has children, then (when content is present) the 4-byte length
`2 + len(bytecontent)`, then (when an id is present) the 2-byte id, then the
content bytes, then the encoded children in order followed by the 4-byte
container-close marker.  Statements run in source order, so a content
encoding error surfaces before an id conversion error. -/
def encode : BasicNode → Except EncodeError (List Nat)
  | .mk i c ct ch =>
    let openB : List Nat := if ch.isEmpty then [] else leBytes 4 0
    match encodeLenCont c ct with
    | .error e => .error e
    | .ok (lb, bc) =>
      match encodeId i with
      | .error e => .error e
      | .ok idB =>
        if ch.isEmpty then .ok (openB ++ lb ++ idB ++ bc)
        else
          match encodeList ch with
          | .error e => .error e
          | .ok cb => .ok (openB ++ lb ++ idB ++ bc ++ cb ++ leBytes 4 4294967295)

/-- The `for child in self.children: result += child.encode()` loop. -/
def encodeList : List BasicNode → Except EncodeError (List Nat)
  | [] => .ok []
  | n :: rest =>
    match encode n with
    | .error e => .error e
    | .ok b =>
      match encodeList rest with
      | .error e => .error e
      | .ok bs => .ok (b ++ bs)

end

mutual

/-- `BasicNode.encode` with the mutable `self` threaded statement by
statement, to state that encoding is read-only on its input: every branch
returns the node it was given, rebuilt field by field exactly as the source
leaves it.  The method body contains no assignment to any field, so the reads
(`self.children`, `self.content`, `self.id`, `self.contenttype`) return the
fields untouched, and the children loop threads each child object through its
own `encode` call, rebuilding the children list from the returned children. -/
def encodeT : BasicNode → Except EncodeError (List Nat) × BasicNode
  | .mk i c ct ch =>
    let openB : List Nat := if ch.isEmpty then [] else leBytes 4 0
    match encodeLenCont c ct with
    | .error e => (.error e, .mk i c ct ch)
    | .ok (lb, bc) =>
      match encodeId i with
      | .error e => (.error e, .mk i c ct ch)
      | .ok idB =>
        if ch.isEmpty then (.ok (openB ++ lb ++ idB ++ bc), .mk i c ct ch)
        else
          match encodeTList ch with
          | (.error e, ch2) => (.error e, .mk i c ct ch2)
          | (.ok cb, ch2) =>
            (.ok (openB ++ lb ++ idB ++ bc ++ cb ++ leBytes 4 4294967295),
              .mk i c ct ch2)

/-- The children loop of `encodeT`, threading every child object. -/
def encodeTList : List BasicNode → Except EncodeError (List Nat) × List BasicNode
  | [] => (.ok [], [])
  | n :: rest =>
    match encodeT n with
    | (.error e, n2) => (.error e, n2 :: rest)
    | (.ok b, n2) =>
      match encodeTList rest with
      | (.error e, rest2) => (.error e, n2 :: rest2)
      | (.ok bs, rest2) => (.ok (b ++ bs), n2 :: rest2)

end

/-- Decoder states, `DecoderState` in `nodes.py` (the source spells the
content-length state `CONTRENTLENGTH`). -/
inductive DecoderState where
  | RESET | CONTRENTLENGTH | NODEID | NODEIDFORCONTENT | CONTENT
deriving DecidableEq, Repr

/-- Errors the decoder can surface.  `framingError` and `incompleteError` are
the two `DecodeValueError` raises of the source (root-marker mismatch at line
196, "Not all nodes have been closed" at line 240 — same exception class,
distinct messages); `missingBytes` is `MissingBytesDecodeError`;
`attributeError` is the uncaught `AttributeError` raised when the comparison
`self.current_node == self.root_node` runs with `current_node` equal to `None`
(a close marker read while the cursor is the root pops to the root's absent
parent, and the reflected `BasicNode.__eq__(root, None)` reads `None.id`).
`outOfFuel` is an artifact of the fuel-based embedding of the `while` loop; it
is never returned at the fuel `decode` supplies, because every loop iteration
either consumes input or moves to a state that does. -/
inductive DecodeError where
  | framingError
  | missingBytes
  | incompleteError
  | attributeError
  | outOfFuel
deriving DecidableEq, Repr

/-- `StreamDecoder._get_bytes` (`nodes.py` lines 179-186): take `n` bytes off
the front of the stream, or fail with the missing-bytes error; the remaining
stream is returned alongside (the Python iterator advances in place). -/
def getBytes : Nat → List Nat → Except DecodeError (List Nat × List Nat)
  | 0, s => .ok ([], s)
  | _ + 1, [] => .error .missingBytes
  | n + 1, b :: s =>
    match getBytes n s with
    | .error e => .error e
    | .ok (bs, rest) => .ok (b :: bs, rest)

/-- Little-endian value of a byte list (`struct.unpack("<H", ...)` on 2 bytes,
`struct.unpack("<I", ...)` on 4 bytes). -/
def unpackLE (bs : List Nat) : Nat := bs.foldr (fun b acc => b + 256 * acc) 0

/-- A node under construction during decode: the fields of the Python
`BasicNode` the decoder mutates, with the completed children accumulated in
order.  The `parent_node` chain of the source is the explicit ancestor stack
of `decodeLoop`. -/
structure NodeAcc where
  id : Option Int
  content : Option PyValue
  contenttype : Option ContentType
  children : List BasicNode

/-- Freeze a finished accumulator into a `BasicNode`. -/
def NodeAcc.toNode (a : NodeAcc) : BasicNode :=
  .mk a.id a.content a.contenttype a.children

/-- The accumulator of a freshly constructed `BasicNode()`. -/
def emptyAcc : NodeAcc := ⟨none, none, none, []⟩

/-- Record the id read by the NODEID / NODEIDFORCONTENT states. -/
def NodeAcc.setId (a : NodeAcc) (i : Nat) : NodeAcc :=
  ⟨some (i : Int), a.content, a.contenttype, a.children⟩

/-- Append a completed child (the source appends the child object on creation
and the child is completed in place; appending on completion yields the same
final children list because siblings are only created after the cursor pops
back). -/
def NodeAcc.addChild (a : NodeAcc) (c : BasicNode) : NodeAcc :=
  ⟨a.id, a.content, a.contenttype, a.children ++ [c]⟩

/-- Record decoded raw content (CONTENT state, `nodes.py` lines 233-236). -/
def NodeAcc.setContent (a : NodeAcc) (b : List Nat) : NodeAcc :=
  ⟨a.id, some (.pyBytes b), some .RAW, a.children⟩

/-- `StreamDecoder._decode` (`nodes.py` lines 188-240).  `cur` is the node the
cursor `self.current_node` points at, `stack` its chain of in-progress
ancestors (root last); the cursor is at the root exactly when `stack` is
empty.  `cl` is `self.content_length` (read only by CONTENT, and always set on
the path into CONTENT; the initial value stands in for the `None` set by
`reset`).  The `while previous_state != self.state` guard of the source makes
the close-marker branch terminal unless the pop lands on the root: the branch
keeps the state at CONTRENTLENGTH, so after its `continue` the loop exits and
line 239 raises the incompleteness error.  The equality tests
`self.current_node == self.root_node` use the structural `BasicNode.__eq__`,
which here coincides with cursor identity: a proper in-progress descendant of
the root always has strictly fewer nodes than the root (whose children chain
contains it), and structurally equal trees have equally many nodes.  A pop
with the cursor already at the root sets the cursor to `None` and the
comparison with the root then raises `AttributeError` (reflected `__eq__`
reads `None.id`).  `fuel` decreases once per loop iteration; see
`DecodeError.outOfFuel`. -/
def decodeLoop : Nat → DecoderState → NodeAcc → List NodeAcc → Nat → List Nat →
    Except DecodeError BasicNode
  | 0, _, _, _, _, _ => .error .outOfFuel
  | fuel + 1, .RESET, _, _, cl, s =>
    match getBytes 4 s with
    | .error e => .error e
    | .ok (bs, rest) =>
      if bs = leBytes 4 0 then decodeLoop fuel .NODEID emptyAcc [] cl rest
      else .error .framingError
  | fuel + 1, .NODEID, cur, stack, cl, s =>
    match getBytes 2 s with
    | .error e => .error e
    | .ok (bs, rest) =>
      decodeLoop fuel .CONTRENTLENGTH (cur.setId (unpackLE bs)) stack cl rest
  | fuel + 1, .NODEIDFORCONTENT, cur, stack, cl, s =>
    match getBytes 2 s with
    | .error e => .error e
    | .ok (bs, rest) =>
      decodeLoop fuel .CONTENT (cur.setId (unpackLE bs)) stack cl rest
  | fuel + 1, .CONTRENTLENGTH, cur, stack, cl, s =>
    match getBytes 4 s with
    | .error e => .error e
    | .ok (bs, rest) =>
      if bs = leBytes 4 4294967295 then
        -- close marker: pop the cursor to its parent
        match stack with
        | [] => .error .attributeError
        | parent :: above =>
          let parent' := parent.addChild cur.toNode
          if above.isEmpty then .ok parent'.toNode
          else .error .incompleteError
      else
        -- push a fresh child under the cursor
        if unpackLE bs = 0 then
          decodeLoop fuel .NODEID emptyAcc (cur :: stack) cl rest
        else
          decodeLoop fuel .NODEIDFORCONTENT emptyAcc (cur :: stack)
            (unpackLE bs - 2) rest
  | fuel + 1, .CONTENT, cur, stack, cl, s =>
    match getBytes cl s with
    | .error e => .error e
    | .ok (bs, rest) =>
      match stack with
      | parent :: above =>
        decodeLoop fuel .CONTRENTLENGTH (parent.addChild (cur.setContent bs).toNode)
          above cl rest
      | [] =>
        -- unreachable from `decode`: CONTENT is only entered under a pushed
        -- child; the source would set the cursor to `None` and crash on the
        -- next node access
        .error .attributeError

/-- `StreamDecoder.decode` (`nodes.py` lines 168-177): reset and run the state
machine over the byte sequence.  The fuel `s.length + 1` dominates the number
of loop iterations, because every iteration consumes bytes except a
zero-length CONTENT step, which hands over to the consuming CONTRENTLENGTH
state. -/
def decode (s : List Nat) : Except DecodeError BasicNode :=
  decodeLoop (s.length + 1) .RESET emptyAcc [] 0 s

/-! Spec-side vocabulary for the round-trip statement: the wire frame of a
content leaf, the frame sequence of a leaf list, the frame of a structural
node with leaf children, and the decoded (Raw-tagged) image of a leaf. -/

/-- Content bytes of a node whose content encodes successfully (the
round-trip hypotheses below guarantee the `.ok` branch). -/
def contentBytes (n : BasicNode) : List Nat :=
  match encodecontent n.contenttype n.content with
  | .ok b => b
  | .error _ => []

/-- The node id as the 16-bit value the wire carries. -/
def idNat (n : BasicNode) : Nat := (n.id.getD 0).toNat

/-- Wire frame of a content leaf: 4-byte length `2 + len(content)`, 2-byte
id, content bytes. -/
def leafFrame (n : BasicNode) : List Nat :=
  leBytes 4 (2 + (contentBytes n).length) ++ leBytes 2 (idNat n) ++ contentBytes n

/-- Concatenated wire frames of a list of content leaves. -/
def framesList : List BasicNode → List Nat
  | [] => []
  | n :: rest => leafFrame n ++ framesList rest

/-- Wire frame of a structural node: container-open, 2-byte id, leaf frames,
container-close. -/
def structFrame (g : BasicNode) : List Nat :=
  leBytes 4 0 ++ leBytes 2 (idNat g) ++ framesList g.children ++ leBytes 4 4294967295

/-- What the decoder rebuilds for a content leaf: same id, the encoded
content bytes as content, tagged `RAW`, no children. -/
def rawLeaf (n : BasicNode) : BasicNode :=
  .mk n.id (some (.pyBytes (contentBytes n))) (some .RAW) []

/-- What the decoder rebuilds for a structural node with leaf children. -/
def rawStruct (g : BasicNode) : BasicNode :=
  .mk g.id none none (g.children.map rawLeaf)

/-- A content leaf the codec round-trips: no children, an id in the 16-bit
range, typed content that encodes successfully, and a content length whose
length field neither overflows 4 bytes nor collides with the close marker. -/
def GoodLeaf (n : BasicNode) : Prop :=
  n.children = [] ∧
  (∃ i : Int, n.id = some i ∧ 0 ≤ i ∧ i < 65536) ∧
  (∃ v, n.content = some v) ∧
  (∃ b, encodecontent n.contenttype n.content = .ok b ∧ b.length + 2 < 4294967295)

/-- A structural node the codec round-trips: no content of its own, an id in
the 16-bit range, and a nonempty list of good content leaves as children. -/
def GoodStruct (g : BasicNode) : Prop :=
  g.content = none ∧
  (∃ i : Int, g.id = some i ∧ 0 ≤ i ∧ i < 65536) ∧
  g.children ≠ [] ∧
  ∀ c ∈ g.children, GoodLeaf c

/-- Append several completed children to an accumulator. -/
def NodeAcc.addChildren (a : NodeAcc) (cs : List BasicNode) : NodeAcc :=
  ⟨a.id, a.content, a.contenttype, a.children ++ cs⟩

/-! ## Byte-level lemmas -/

theorem getBytes_short : ∀ (n : Nat) (s : List Nat), s.length < n →
    getBytes n s = .error .missingBytes := by
  intro n
  induction n with
  | zero => intro s h; omega
  | succ m ih =>
    intro s h
    cases s with
    | nil => rfl
    | cons b rest =>
      simp only [getBytes]
      rw [ih rest (by simpa using Nat.lt_of_succ_lt_succ h)]

theorem getBytes_append : ∀ (xs rest : List Nat),
    getBytes xs.length (xs ++ rest) = .ok (xs, rest) := by
  intro xs
  induction xs with
  | nil => intro rest; rfl
  | cons b xs ih =>
    intro rest
    simp only [List.length_cons, List.cons_append, getBytes, List.append_eq, ih]

theorem getBytes_take (n : Nat) (s : List Nat) (h : n ≤ s.length) :
    getBytes n s = .ok (s.take n, s.drop n) := by
  have hlen : (s.take n).length = n := by simp [Nat.min_eq_left h]
  calc getBytes n s = getBytes (s.take n).length (s.take n ++ s.drop n) := by
        rw [hlen, List.take_append_drop]
    _ = .ok (s.take n, s.drop n) := getBytes_append _ _

theorem leBytes_length : ∀ (n v : Nat), (leBytes n v).length = n := by
  intro n
  induction n with
  | zero => intro v; rfl
  | succ m ih => intro v; simp [leBytes, ih]

theorem unpackLE_leBytes : ∀ (n v : Nat), v < 256 ^ n →
    unpackLE (leBytes n v) = v := by
  intro n
  induction n with
  | zero => intro v h; interval_cases v; rfl
  | succ m ih =>
    intro v h
    have hdiv : v / 256 < 256 ^ m := by
      rw [Nat.div_lt_iff_lt_mul (by norm_num)]
      calc v < 256 ^ (m + 1) := h
        _ = 256 ^ m * 256 := by ring
    simp only [leBytes, unpackLE, List.foldr_cons]
    have := ih (v / 256) hdiv
    simp only [unpackLE] at this
    rw [this]
    omega

/-! ## Decoder step lemmas

One lemma per loop iteration of `_decode`, each consuming the exact bytes and
one unit of fuel, so that runs of the state machine compose by rewriting. -/

theorem getBytes_leBytes (n v : Nat) (rest : List Nat) :
    getBytes n (leBytes n v ++ rest) = .ok (leBytes n v, rest) := by
  have h := getBytes_append (leBytes n v) rest
  rwa [leBytes_length] at h

theorem decodeLoop_cl_irrelevant : ∀ (f : Nat) (st : DecoderState) (cur : NodeAcc)
    (stack : List NodeAcc) (cl cl2 : Nat) (s : List Nat),
    st = .RESET ∨ st = .NODEID ∨ st = .CONTRENTLENGTH →
    decodeLoop f st cur stack cl s = decodeLoop f st cur stack cl2 s := by
  intro f
  induction f with
  | zero => intro st cur stack cl cl2 s _; rfl
  | succ m ih =>
    intro st cur stack cl cl2 s hst
    rcases hst with h | h | h <;> subst h
    · simp only [decodeLoop]
      cases getBytes 4 s with
      | error e => rfl
      | ok p =>
        cases p with
        | mk bs rest =>
          by_cases hb : bs = leBytes 4 0
          · simp only [hb, if_pos rfl]
            exact ih _ _ _ _ _ _ (Or.inr (Or.inl rfl))
          · simp only [if_neg hb]
    · simp only [decodeLoop]
      cases getBytes 2 s with
      | error e => rfl
      | ok p =>
        cases p with
        | mk bs rest => exact ih _ _ _ _ _ _ (Or.inr (Or.inr rfl))
    · simp only [decodeLoop]
      cases getBytes 4 s with
      | error e => rfl
      | ok p =>
        cases p with
        | mk bs rest =>
          by_cases hb : bs = leBytes 4 4294967295
          · simp only [if_pos hb]
          · by_cases hz : unpackLE bs = 0
            · simp only [if_neg hb, hz, if_pos rfl]
              exact ih _ _ _ _ _ _ (Or.inr (Or.inl rfl))
            · simp only [if_neg hb, if_neg hz]

theorem decodeLoop_reset (f : Nat) (cur : NodeAcc) (stack : List NodeAcc)
    (cl : Nat) (rest : List Nat) :
    decodeLoop (f + 1) .RESET cur stack cl (leBytes 4 0 ++ rest) =
      decodeLoop f .NODEID emptyAcc [] cl rest := by
  simp only [decodeLoop]
  rw [getBytes_leBytes]
  simp

theorem decodeLoop_nodeid (f : Nat) (cur : NodeAcc) (stack : List NodeAcc)
    (cl : Nat) (i : Nat) (hi : i < 65536) (rest : List Nat) :
    decodeLoop (f + 1) .NODEID cur stack cl (leBytes 2 i ++ rest) =
      decodeLoop f .CONTRENTLENGTH (cur.setId i) stack cl rest := by
  have hv : unpackLE (leBytes 2 i) = i :=
    unpackLE_leBytes 2 i (by norm_num; omega)
  simp only [decodeLoop]
  rw [getBytes_leBytes]
  simp only [hv]

theorem decodeLoop_push (f : Nat) (cur : NodeAcc) (stack : List NodeAcc)
    (cl : Nat) (rest : List Nat) :
    decodeLoop (f + 1) .CONTRENTLENGTH cur stack cl (leBytes 4 0 ++ rest) =
      decodeLoop f .NODEID emptyAcc (cur :: stack) cl rest := by
  simp only [decodeLoop]
  rw [getBytes_leBytes]
  have hne : leBytes 4 0 ≠ leBytes 4 4294967295 := by decide
  have hz : unpackLE (leBytes 4 0) = 0 := by decide
  simp [hne, hz]

theorem decodeLoop_close_ret (f : Nat) (cur parent : NodeAcc) (cl : Nat)
    (rest : List Nat) :
    decodeLoop (f + 1) .CONTRENTLENGTH cur [parent] cl
      (leBytes 4 4294967295 ++ rest) = .ok (parent.addChild cur.toNode).toNode := by
  simp only [decodeLoop]
  rw [getBytes_leBytes]
  simp

theorem decodeLoop_leaf (f : Nat) (cur : NodeAcc) (stack : List NodeAcc)
    (cl : Nat) (l : BasicNode) (hl : GoodLeaf l) (rest : List Nat) :
    decodeLoop (f + 3) .CONTRENTLENGTH cur stack cl (leafFrame l ++ rest) =
      decodeLoop f .CONTRENTLENGTH (cur.addChild (rawLeaf l)) stack
        (contentBytes l).length rest := by
  obtain ⟨hch, ⟨i, hid, hi0, hi1⟩, ⟨v, hv⟩, ⟨b, hb, hblen⟩⟩ := hl
  have hcb : contentBytes l = b := by simp [contentBytes, hb]
  have hlen : unpackLE (leBytes 4 (2 + (contentBytes l).length)) =
      2 + (contentBytes l).length := by
    apply unpackLE_leBytes
    rw [hcb]; norm_num; omega
  have hne : leBytes 4 (2 + (contentBytes l).length) ≠ leBytes 4 4294967295 := by
    intro h
    have h2 := congrArg unpackLE h
    rw [hlen, unpackLE_leBytes 4 4294967295 (by norm_num)] at h2
    rw [hcb] at h2
    omega
  have hz : unpackLE (leBytes 4 (2 + (contentBytes l).length)) ≠ 0 := by
    rw [hlen]; omega
  -- first iteration: CONTRENTLENGTH reads the length field and pushes
  rw [leafFrame, List.append_assoc, List.append_assoc,
    show f + 3 = (f + 1 + 1) + 1 by ring]
  simp only [decodeLoop]
  rw [getBytes_leBytes]
  simp only [if_neg hne, if_neg hz]
  -- second iteration: NODEIDFORCONTENT reads the id
  rw [getBytes_leBytes]
  -- third iteration: CONTENT reads the content bytes and pops
  simp only [hlen]
  rw [show 2 + (contentBytes l).length - 2 = (contentBytes l).length
    by omega, getBytes_append]
  simp only []
  have hnode : ((emptyAcc.setId (unpackLE (leBytes 2 (idNat l)))).setContent
      (contentBytes l)).toNode = rawLeaf l := by
    have hun : unpackLE (leBytes 2 (idNat l)) = idNat l := by
      apply unpackLE_leBytes
      simp [idNat, hid]
      omega
    have hidn : ((idNat l : Int)) = i := by
      simp [idNat, hid]; omega
    simp [hun, NodeAcc.setId, NodeAcc.setContent, NodeAcc.toNode, emptyAcc,
      rawLeaf, hid, hidn]
  rw [hnode]

theorem decodeLoop_leaves : ∀ (ls : List BasicNode), (∀ l ∈ ls, GoodLeaf l) →
    ∀ (f : Nat) (cur : NodeAcc) (stack : List NodeAcc) (cl cl2 : Nat)
      (rest : List Nat),
    decodeLoop (f + 3 * ls.length) .CONTRENTLENGTH cur stack cl
      (framesList ls ++ rest) =
      decodeLoop f .CONTRENTLENGTH (cur.addChildren (ls.map rawLeaf)) stack cl2
        rest := by
  intro ls
  induction ls with
  | nil =>
    intro _ f cur stack cl cl2 rest
    have hcur : cur.addChildren [] = cur := by
      cases cur; simp [NodeAcc.addChildren]
    simp only [framesList, List.map_nil, List.length_nil, Nat.mul_zero,
      Nat.add_zero, List.nil_append, hcur]
    exact decodeLoop_cl_irrelevant f _ cur stack cl cl2 rest
      (Or.inr (Or.inr rfl))
  | cons l ls ih =>
    intro hg f cur stack cl cl2 rest
    have hstep : f + 3 * (l :: ls).length = (f + 3 * ls.length) + 3 := by
      simp [List.length_cons]; ring
    have hacc : (cur.addChild (rawLeaf l)).addChildren (ls.map rawLeaf) =
        cur.addChildren ((l :: ls).map rawLeaf) := by
      cases cur
      simp [NodeAcc.addChild, NodeAcc.addChildren]
    rw [hstep, framesList, List.append_assoc,
      decodeLoop_leaf _ _ _ _ l (hg l (by simp)),
      ih (fun x hx => hg x (by simp [hx])) f _ stack _ cl2 rest, hacc]

theorem decodeLoop_struct (f : Nat) (cur : NodeAcc) (cl : Nat) (g : BasicNode)
    (hg : GoodStruct g) (rest : List Nat) :
    decodeLoop (f + (3 * g.children.length + 3)) .CONTRENTLENGTH cur [] cl
      (structFrame g ++ rest) = .ok (cur.addChild (rawStruct g)).toNode := by
  obtain ⟨hc, ⟨i, hid, hi0, hi1⟩, hnonempty, hleaves⟩ := hg
  have hidlt : idNat g < 65536 := by
    simp [idNat, hid]; omega
  have hfuel : f + (3 * g.children.length + 3) =
      (((f + 1) + 3 * g.children.length) + 1) + 1 := by ring
  rw [hfuel, structFrame, List.append_assoc, List.append_assoc,
    List.append_assoc, decodeLoop_push, decodeLoop_nodeid _ _ _ _ _ hidlt,
    decodeLoop_leaves g.children hleaves (f + 1) _ _ _ cl,
    decodeLoop_close_ret]
  have hacc : ((emptyAcc.setId (idNat g)).addChildren
      (g.children.map rawLeaf)).toNode = rawStruct g := by
    have hidn : ((idNat g : Int)) = i := by
      simp [idNat, hid]; omega
    simp [NodeAcc.setId, NodeAcc.addChildren, NodeAcc.toNode, emptyAcc,
      rawStruct, hid, hidn]
  rw [hacc]

/-! ## Encoder-side lemmas -/

theorem intToBytes_small (nbytes : Nat) (i : Int) (h0 : 0 ≤ i)
    (h1 : i < (256 : Int) ^ nbytes) :
    intToBytes nbytes i = .ok (leBytes nbytes i.toNat) := by
  rw [intToBytes, if_neg (by omega), if_neg (by omega)]

theorem encode_goodLeaf (l : BasicNode) (hl : GoodLeaf l) :
    encode l = .ok (leafFrame l) := by
  obtain ⟨hch, ⟨i, hid, hi0, hi1⟩, ⟨v, hv⟩, ⟨b, hb, hblen⟩⟩ := hl
  have hcb : contentBytes l = b := by simp [contentBytes, hb]
  cases l with
  | mk li lc lct lch =>
    simp only [BasicNode.children] at hch
    simp only [BasicNode.id] at hid
    simp only [BasicNode.content] at hv
    simp only [BasicNode.contenttype, BasicNode.content] at hb
    subst hch hid hv
    rw [encode, encodeLenCont]
    simp only [hb]
    have hlenb : intToBytes 4 ((2 : Int) + b.length) =
        .ok (leBytes 4 (2 + b.length)) := by
      rw [intToBytes_small 4 _ (by omega) (by norm_num; omega)]
      have ht : ((2 : Int) + (b.length : Int)).toNat = 2 + b.length := by omega
      rw [ht]
    have hidb : intToBytes 2 i = .ok (leBytes 2 i.toNat) :=
      intToBytes_small 2 i hi0 (by norm_num; omega)
    rw [hlenb]
    rw [encodeId]
    simp only [hidb, List.isEmpty_nil, if_pos rfl]
    rw [leafFrame]
    simp [hcb, idNat, BasicNode.id]

theorem encodeList_leaves : ∀ (ls : List BasicNode), (∀ l ∈ ls, GoodLeaf l) →
    encodeList ls = .ok (framesList ls) := by
  intro ls
  induction ls with
  | nil => intro _; rfl
  | cons l ls ih =>
    intro hg
    rw [encodeList, encode_goodLeaf l (hg l (by simp)),
      ih (fun x hx => hg x (by simp [hx])), framesList]

theorem encode_goodStruct (g : BasicNode) (hg : GoodStruct g) :
    encode g = .ok (structFrame g) := by
  obtain ⟨hc, ⟨i, hid, hi0, hi1⟩, hnonempty, hleaves⟩ := hg
  cases g with
  | mk gi gc gct gch =>
    simp only [BasicNode.content] at hc
    simp only [BasicNode.id] at hid
    simp only [BasicNode.children] at hnonempty hleaves
    subst hc hid
    have hne : (gch.isEmpty) = false := by
      cases gch with
      | nil => exact absurd rfl hnonempty
      | cons a as => rfl
    rw [encode, encodeLenCont]
    simp only [hne, Bool.false_eq_true, if_false]
    rw [encodeId, intToBytes_small 2 i hi0 (by norm_num; omega),
      encodeList_leaves gch hleaves]
    rw [structFrame]
    simp [idNat, BasicNode.id, BasicNode.children]

theorem encodeList_snoc_struct (ls : List BasicNode) (g : BasicNode)
    (hls : ∀ l ∈ ls, GoodLeaf l) (hg : GoodStruct g) :
    encodeList (ls ++ [g]) = .ok (framesList ls ++ structFrame g) := by
  induction ls with
  | nil =>
    rw [List.nil_append, encodeList, encode_goodStruct g hg, encodeList]
    simp [framesList]
  | cons l ls ih =>
    rw [List.cons_append, encodeList, encode_goodLeaf l (hls l (by simp)),
      ih (fun x hx => hls x (by simp [hx]))]
    simp [framesList]

theorem framesList_length_ge : ∀ (ls : List BasicNode),
    6 * ls.length ≤ (framesList ls).length := by
  intro ls
  induction ls with
  | nil => simp [framesList]
  | cons l ls ih =>
    simp only [framesList, List.length_append, leafFrame, leBytes_length,
      List.length_cons]
    omega

/-! ## Claim theorems -/

/-- C1, corrected.  The claim as stated fails: the decoder reads the first
2-byte id into the root node itself, while `encode` of an id-less root emits
no id there, so even the minimal valid tree (an id-less root with a single
content leaf) is misparsed.  Here, for that tree, decoding its own encoding
fails with the missing-bytes error: the decoder misreads the leaf's length
field bytes as the root id, then misreads half the close marker into a huge
content length. -/
theorem claim1_roundtrip_cex :
    encode (.mk none none none
        [.mk (some 1) (some (.pyBytes [42])) (some .RAW) []]) =
      .ok [0, 0, 0, 0, 3, 0, 0, 0, 1, 0, 42, 255, 255, 255, 255] ∧
    decode [0, 0, 0, 0, 3, 0, 0, 0, 1, 0, 42, 255, 255, 255, 255] =
      .error .missingBytes ∧
    ∀ t : BasicNode,
      (.error .missingBytes : Except DecodeError BasicNode) ≠ .ok t :=
  ⟨rfl, rfl, fun _ h => Except.noConfusion h⟩

/-- C1 (amended): the codec round-trips exactly the trees aligned with the
decoder's framing — a root carrying a 16-bit id and no content, whose children
are content leaves followed by one final structural node with content-leaf
children.  For such trees `decode (encode t)` rebuilds the same id at every
node and the same ordered children structure, and every decoded leaf carries
the encoded content bytes of the original leaf, tagged `RAW`. -/
theorem claim1_roundtrip_amended (r : Int) (ls : List BasicNode) (g : BasicNode)
    (hr0 : 0 ≤ r) (hr1 : r < 65536) (hls : ∀ l ∈ ls, GoodLeaf l)
    (hg : GoodStruct g) :
    ∃ bs, encode (.mk (some r) none none (ls ++ [g])) = .ok bs ∧
      decode bs = .ok (.mk (some r) none none
        (ls.map rawLeaf ++ [rawStruct g])) := by
  have hlist : encodeList (ls ++ [g]) = .ok (framesList ls ++ structFrame g) :=
    encodeList_snoc_struct ls g hls hg
  have hnev : ((ls ++ [g]).isEmpty) = false := by
    cases ls <;> rfl
  have henc : encode (.mk (some r) none none (ls ++ [g])) = .ok
      (leBytes 4 0 ++ (leBytes 2 r.toNat ++ (framesList ls ++
        (structFrame g ++ leBytes 4 4294967295)))) := by
    rw [encode, encodeLenCont]
    simp only [hnev, Bool.false_eq_true, if_false]
    rw [encodeId, intToBytes_small 2 r hr0 (by norm_num; omega), hlist]
    simp
  refine ⟨_, henc, ?_⟩
  rw [decode]
  have h1 := framesList_length_ge ls
  have h2 := framesList_length_ge g.children
  have hsf : (structFrame g).length = 10 + (framesList g.children).length := by
    simp [structFrame, leBytes_length]
    omega
  have hBlen : (leBytes 4 0 ++ (leBytes 2 r.toNat ++ (framesList ls ++
      (structFrame g ++ leBytes 4 4294967295)))).length =
      10 + (framesList ls).length + (structFrame g).length := by
    simp [leBytes_length]
    omega
  obtain ⟨k, hk⟩ : ∃ k, (leBytes 4 0 ++ (leBytes 2 r.toNat ++ (framesList ls ++
      (structFrame g ++ leBytes 4 4294967295)))).length + 1 =
      (((k + (3 * g.children.length + 3)) + 3 * ls.length) + 1) + 1 := by
    refine ⟨(leBytes 4 0 ++ (leBytes 2 r.toNat ++ (framesList ls ++
      (structFrame g ++ leBytes 4 4294967295)))).length -
      (3 * ls.length + 3 * g.children.length + 4), ?_⟩
    rw [hBlen] at *
    omega
  rw [hk, decodeLoop_reset, decodeLoop_nodeid _ _ _ _ _ (by omega),
    decodeLoop_leaves ls hls _ _ _ _ 0, decodeLoop_struct _ _ _ g hg]
  have hfinal : ((((emptyAcc.setId r.toNat).addChildren
      (ls.map rawLeaf)).addChild (rawStruct g)).toNode : BasicNode) =
      .mk (some r) none none (ls.map rawLeaf ++ [rawStruct g]) := by
    simp [emptyAcc, NodeAcc.setId, NodeAcc.addChildren, NodeAcc.addChild,
      NodeAcc.toNode, Int.toNat_of_nonneg hr0]
  rw [hfinal]

/-- Witness for C1 (amended) at a concrete tree: root id 1, one byte-content
leaf, then a structural node with one two-byte content leaf. -/
theorem claim1_roundtrip_amended_witness :
    ∃ bs, encode (.mk (some 1) none none
        ([.mk (some 2) (some (.pyBytes [42])) (some .RAW) []] ++
          [.mk (some 3) none none
            [.mk (some 4) (some (.pyBytes [7, 8])) (some .FILE) []]])) =
        .ok bs ∧
      decode bs = .ok (.mk (some 1) none none
        ([.mk (some 2) (some (.pyBytes [42])) (some .RAW) []].map rawLeaf ++
          [rawStruct (.mk (some 3) none none
            [.mk (some 4) (some (.pyBytes [7, 8])) (some .FILE) []])])) := by
  apply claim1_roundtrip_amended 1
    [.mk (some 2) (some (.pyBytes [42])) (some .RAW) []]
    (.mk (some 3) none none
      [.mk (some 4) (some (.pyBytes [7, 8])) (some .FILE) []])
    (by decide) (by decide)
  · intro l hl
    simp only [List.mem_singleton] at hl
    subst hl
    exact ⟨rfl, ⟨2, rfl, by decide, by decide⟩, ⟨_, rfl⟩, ⟨[42], rfl, by decide⟩⟩
  · refine ⟨rfl, ⟨3, rfl, by decide, by decide⟩, by simp [BasicNode.children], ?_⟩
    intro c hc
    simp only [BasicNode.children, List.mem_singleton] at hc
    subst hc
    exact ⟨rfl, ⟨4, rfl, by decide, by decide⟩, ⟨_, rfl⟩, ⟨[7, 8], rfl, by decide⟩⟩

/-- C2, corrected (counterexample part).  Encoding the id-100 tree does yield
`00 00 00 00 64 00 FF FF FF FF`, but decoding that byte sequence does not
return a root with one id-100 child: the decoder stores id 100 on the root
itself, and the close marker then pops the cursor past the root, raising the
uncaught `AttributeError` from comparing `None` with the root node — an error,
never an `.ok` tree. -/
theorem claim2_structural_example_cex :
    decode [0, 0, 0, 0, 100, 0, 255, 255, 255, 255] = .error .attributeError ∧
    ∀ t : BasicNode,
      (.error .attributeError : Except DecodeError BasicNode) ≠ .ok t :=
  ⟨rfl, fun _ h => Except.noConfusion h⟩

/-- C2 (amended): the encoding half of the claim holds — the tree with an
id-less root whose sole child has id 100 and no content encodes to
`00 00 00 00 64 00 FF FF FF FF` — but decoding that exact byte sequence fails
with the uncaught `AttributeError` instead of reproducing the tree. -/
theorem claim2_structural_example_amended :
    encode (.mk none none none [.mk (some 100) none none []]) =
      .ok [0, 0, 0, 0, 100, 0, 255, 255, 255, 255] ∧
    decode [0, 0, 0, 0, 100, 0, 255, 255, 255, 255] =
      .error .attributeError := by
  constructor <;> rfl

/-- C3, corrected (counterexample part).  A buffer that opens a container and
ends without the close marker fails with the missing-bytes error, not the
incompleteness error: the loop never reaches the `current != root` check,
because running out of bytes raises inside `_get_bytes` first. -/
theorem claim3_incompleteness_cex :
    decode [0, 0, 0, 0, 1, 0, 0, 0, 0, 0, 2, 0] = .error .missingBytes ∧
    DecodeError.missingBytes ≠ DecodeError.incompleteError :=
  ⟨rfl, by decide⟩

/-- C3 (amended): a buffer that opens a container but never supplies the
matching close marker fails with the missing-bytes error; the incompleteness
error is raised instead exactly by the loop-guard path — a close marker that
closes a container whose parent is not the root, as in the second buffer,
where the single close of the innermost of two nested containers leaves the
cursor away from the root and line 240 raises. -/
theorem claim3_incompleteness_amended :
    decode [0, 0, 0, 0, 1, 0, 0, 0, 0, 0, 2, 0] = .error .missingBytes ∧
    decode [0, 0, 0, 0, 1, 0, 0, 0, 0, 0, 2, 0, 0, 0, 0, 0, 3, 0,
        255, 255, 255, 255] = .error .incompleteError := by
  constructor <;> rfl

/-- C4, code bug.  The Single/Double range guards compare the signed value
against the positive magnitude bounds `1.5E-45 <= x <= 3.4E38` (resp.
`5.0E-324 <= x <= 1.7E308`), so zero and every negative value — all
representable in IEEE-754 — are rejected with the encoding value error,
though the claim (and the protocol, which carries speeds and other signed
telemetry) requires them to encode. -/
theorem claim4_float_zero_negative_rejected :
    encodecontent (some .SINGLE) (some (.pyFloat 0)) = .error .encodingValue ∧
    encodecontent (some .SINGLE) (some (.pyFloat (-1))) = .error .encodingValue ∧
    encodecontent (some .DOUBLE) (some (.pyFloat 0)) = .error .encodingValue ∧
    encodecontent (some .DOUBLE) (some (.pyFloat (-1))) =
      .error .encodingValue := by
  refine ⟨?_, ?_, ?_, ?_⟩ <;>
    simp only [encodecontent, encodeFloatKind, asRat] <;>
    rw [if_neg (by norm_num)]

/-- C5, code bug.  Every signed integer kind passes its range guard for
in-range negative values and then calls `int.to_bytes` without `signed=True`,
which raises an uncaught `OverflowError` on any negative int, so no negative
in-range value encodes; non-negative in-range values do emit the fixed
little-endian width. -/
theorem claim5_signed_negative_overflow :
    encodecontent (some .SHORTINT) (some (.pyInt (-1))) =
      .error .overflowError ∧
    encodecontent (some .SMALLINT) (some (.pyInt (-1))) =
      .error .overflowError ∧
    encodecontent (some .INTEGER) (some (.pyInt (-2147483648))) =
      .error .overflowError ∧
    encodecontent (some .INTEGER64BIT) (some (.pyInt (-5))) =
      .error .overflowError ∧
    encodecontent (some .SHORTINT) (some (.pyInt 127)) = .ok [127] ∧
    encodecontent (some .SMALLINT) (some (.pyInt 32767)) = .ok [255, 127] ∧
    EncodeError.overflowError ≠ EncodeError.encodingValue := by
  refine ⟨?_, ?_, ?_, ?_, ?_, ?_, ?_⟩ <;> first | rfl | decide

/-- C6, code bug.  A string with a character outside Latin-1 triggers the
`except UnicodeEncodeError` clause, whose message formatting references an
undefined variable `e`, so the call raises `NameError` — a different exception
kind than the claimed encoding value error; strings inside the repertoire
encode to their Latin-1 bytes. -/
theorem claim6_string_nameerror :
    encodecontent (some .STRING) (some (.pyStr "€")) = .error .nameError ∧
    EncodeError.nameError ≠ EncodeError.encodingValue ∧
    encodecontent (some .STRING) (some (.pyStr "AB")) = .ok [65, 66] := by
  refine ⟨?_, ?_, ?_⟩ <;> first | rfl | decide

/-- C7, confirmed: encoding a Byte with value 256 or -1 fails with the
encoding value error while 255 and 0 succeed; encoding a Word with 65536
fails while 65535 succeeds and emits `FF FF`. -/
theorem claim7_byte_word_ranges :
    encodecontent (some .BYTE) (some (.pyInt 256)) = .error .encodingValue ∧
    encodecontent (some .BYTE) (some (.pyInt (-1))) = .error .encodingValue ∧
    encodecontent (some .BYTE) (some (.pyInt 255)) = .ok [255] ∧
    encodecontent (some .BYTE) (some (.pyInt 0)) = .ok [0] ∧
    encodecontent (some .WORD) (some (.pyInt 65536)) = .error .encodingValue ∧
    encodecontent (some .WORD) (some (.pyInt 65535)) = .ok [255, 255] := by
  refine ⟨?_, ?_, ?_, ?_, ?_, ?_⟩ <;> rfl

/-- C8, confirmed: any buffer of at least 4 bytes whose first 4 bytes are not
`00 00 00 00` fails with the decode framing error; the error is returned
straight from the RESET state, before any tree node is built. -/
theorem claim8_framing_error (s : List Nat) (hlen : 4 ≤ s.length)
    (hne : s.take 4 ≠ [0, 0, 0, 0]) :
    decode s = .error .framingError := by
  rw [decode]
  simp only [decodeLoop]
  rw [getBytes_take 4 s hlen]
  have hcond : ¬ (s.take 4 = leBytes 4 0) := by
    intro h
    apply hne
    rw [h]
    rfl
  simp [hcond]

/-- Witness for C8 at the concrete buffer `01 02 03 04`. -/
theorem claim8_framing_error_witness :
    decode [1, 2, 3, 4] = .error .framingError :=
  claim8_framing_error [1, 2, 3, 4] (by decide) (by decide)

/-- C9, confirmed: whenever the byte source holds fewer bytes than the
requested field width, `_get_bytes` fails with the missing-bytes error — a
kind distinct from the framing and incompleteness errors — and `decode`
surfaces it, as on the buffer truncated after 3 of the 4 length bytes. -/
theorem claim9_missing_bytes (n : Nat) (s : List Nat) (h : s.length < n) :
    getBytes n s = .error .missingBytes ∧
    decode [0, 0, 0, 0, 5, 0, 10, 0, 0] = .error .missingBytes ∧
    DecodeError.missingBytes ≠ DecodeError.framingError ∧
    DecodeError.missingBytes ≠ DecodeError.incompleteError :=
  ⟨getBytes_short n s h, rfl, by decide, by decide⟩

/-- Witness for C9: requesting 4 bytes from a 3-byte stream. -/
theorem claim9_missing_bytes_witness :
    getBytes 4 [1, 2, 3] = .error .missingBytes :=
  (claim9_missing_bytes 4 [1, 2, 3] (by decide)).1

mutual

theorem encodeT_eq : ∀ (n : BasicNode), encodeT n = (encode n, n)
  | .mk i c ct ch => by
    rw [encodeT, encode]
    cases hlc : encodeLenCont c ct with
    | error e => rfl
    | ok p =>
      cases p with
      | mk lb bc =>
        cases hid : encodeId i with
        | error e => rfl
        | ok idB =>
          by_cases hch : ch.isEmpty
          · simp [hch]
          · simp only [hch, Bool.false_eq_true, if_false, encodeTList_eq ch]
            cases hel : encodeList ch with
            | error e => simp
            | ok cb => simp

theorem encodeTList_eq : ∀ (l : List BasicNode),
    encodeTList l = (encodeList l, l)
  | [] => by rfl
  | n :: rest => by
    rw [encodeTList, encodeList, encodeT_eq n, encodeTList_eq rest]
    cases encode n with
    | error e => rfl
    | ok b =>
      cases encodeList rest with
      | error e => rfl
      | ok bs => rfl

end

/-- C10, confirmed: encoding is read-only on its input.  `encodeT` is
`BasicNode.encode` with the mutable `self` threaded through every statement
and every child's encode call; it computes the same result as `encode` and
returns the whole input tree unchanged, whether encoding succeeds or fails. -/
theorem claim10_encode_readonly (n : BasicNode) : encodeT n = (encode n, n) :=
  encodeT_eq n

end Pyzusi3
